import Mathlib

/-!
Shallow embedding of the task store of a React Native to-do application.

The store lives in the main application component: a list of tasks
together with mutation operations (`addTask`, `toggleTask`, `editTask`,
`confirmDelete`, `clearCompleted`, `updateTaskPriority`,
`updateTaskDueDate`, `reorderTasks`, `clearAllTasks`), a derived view
(`filteredTasks`) and persistence (`saveTasks` / `loadData`) through an
asynchronous key-value backend.

Modelling choices:
* JavaScript timestamps (`Date.now()`, `new Date()`) are natural numbers
  (milliseconds since the epoch; every timestamp the application produces
  is non-negative).  Each operation that reads the clock takes the
  current time as an explicit argument.
* The persisted form of the task list is the JSON array of task records
  with dates rendered as strings, modelled structurally as
  `List StoredTask`; the date-to-string rendering performed by
  `JSON.stringify` on a `Date` and the inverse `new Date(string)` parse
  are modelled by `encodeDate` / `decodeDate`, an injective decimal
  rendering with an exact parse, matching the millisecond-exact
  ISO-8601 round trip of the original.
* `jsTrim` models `String.prototype.trim`, `jsToLower` models
  `toLowerCase`, and `jsIncludes` (substring containment) models
  `String.prototype.includes`, all written structurally over the
  character list of the string.
-/

namespace TaskStore

/-- `String.prototype.trim`: the string with leading and trailing
whitespace removed. -/
def jsTrim (s : String) : String :=
  ⟨((s.data.dropWhile Char.isWhitespace).reverse.dropWhile Char.isWhitespace).reverse⟩

/-- `String.prototype.toLowerCase`. -/
def jsToLower (s : String) : String :=
  ⟨s.data.map Char.toLower⟩

/-- Task priority, a three-valued enum (`'low' | 'medium' | 'high'` in the
source). -/
inductive Priority where
  | low
  | medium
  | high
deriving DecidableEq, Repr

/-- A task record as constructed by `addTask` in the source:
`{ id, text, completed, createdAt, priority, dueDate }`. -/
structure Task where
  id : Nat
  text : String
  completed : Bool
  createdAt : Nat
  priority : Priority
  dueDate : Option Nat
deriving DecidableEq, Repr

/-- `text.toLowerCase().includes(query.toLowerCase())` from the filter in
the source: case-insensitive substring containment. -/
def jsIncludes (text query : String) : Bool :=
  decide ((jsToLower query).data <:+: (jsToLower text).data)

/-- `addTask` from the main component: if the input trimmed is non-empty,
build a task with `id = Date.now()`, the untrimmed text,
`completed = false`, `createdAt = new Date()`, the chosen priority, and
`dueDate = selectedDate > new Date() ? selectedDate : null`, and prepend
it (`[newTaskObj, ...tasks]`); otherwise do nothing. -/
def addTask (tasks : List Task) (newTask : String) (priority : Priority)
    (selectedDate : Nat) (now : Nat) : List Task :=
  if jsTrim newTask ≠ "" then
    { id := now
      text := newTask
      completed := false
      createdAt := now
      priority := priority
      dueDate := if selectedDate > now then some selectedDate else none } :: tasks
  else
    tasks

/-- `toggleTask` from the main component: flip `completed` on every task
whose id matches, then report whether `updatedTasks.every(t => t.completed)`
holds — the condition under which the confetti celebration is shown.
The first component is the updated list, the second the celebration
signal. -/
def toggleTask (tasks : List Task) (taskId : Nat) : List Task × Bool :=
  let updatedTasks := tasks.map fun task =>
    if task.id = taskId then { task with completed := !task.completed } else task
  (updatedTasks, updatedTasks.all fun task => task.completed)

/-- `editTask` from the main component: unconditionally replace the text of
every task whose id matches. -/
def editTask (tasks : List Task) (taskId : Nat) (newText : String) : List Task :=
  tasks.map fun task =>
    if task.id = taskId then { task with text := newText } else task

/-- `saveEdit` from the task item component composed with its `onEdit`
callback (which is `editTask` for that task's id): the edit is forwarded
only when the edited text trimmed is non-empty
(`if (editedText.trim() && onEdit) onEdit(editedText)`). -/
def saveEdit (tasks : List Task) (taskId : Nat) (editedText : String) : List Task :=
  if jsTrim editedText ≠ "" then editTask tasks taskId editedText else tasks

/-- `confirmDelete` from the main component: keep the tasks whose id
differs from the one being deleted. -/
def confirmDelete (tasks : List Task) (taskToDelete : Nat) : List Task :=
  tasks.filter fun task => task.id != taskToDelete

/-- `clearCompleted` from the main component. -/
def clearCompleted (tasks : List Task) : List Task :=
  tasks.filter fun task => !task.completed

/-- `updateTaskPriority` from the main component. -/
def updateTaskPriority (tasks : List Task) (taskId : Nat) (newPriority : Priority) :
    List Task :=
  tasks.map fun task =>
    if task.id = taskId then { task with priority := newPriority } else task

/-- `updateTaskDueDate` from the main component: overwrite `dueDate` with
the date delivered by the date picker (always an actual date). -/
def updateTaskDueDate (tasks : List Task) (taskId : Nat) (newDate : Nat) : List Task :=
  tasks.map fun task =>
    if task.id = taskId then { task with dueDate := some newDate } else task

/-- The filter enum driving the filtered view: `'all' | 'active' |
'completed'`. -/
inductive FilterKind where
  | all
  | active
  | completed
deriving DecidableEq, Repr

/-- `filteredTasks` from the main component.  Per task the source tests
the status filters first with early returns, and only when neither
matched (so only when the active filter is `all`) tests the search
query. -/
def filteredTasks (tasks : List Task) (activeFilter : FilterKind)
    (searchQuery : String) : List Task :=
  tasks.filter fun task =>
    match activeFilter with
    | .active => !task.completed
    | .completed => task.completed
    | .all => if searchQuery ≠ "" then jsIncludes task.text searchQuery else true

/-- JavaScript `Array.prototype.splice(n, 0, a)`: insert `a` before
position `n`, appending at the end when `n` is at least the length. -/
def spliceInsert {α : Type} : Nat → α → List α → List α
  | 0, a, l => a :: l
  | _ + 1, a, [] => [a]
  | n + 1, a, b :: l => b :: spliceInsert n a l

/-- `reorderTasks` from the main component:
`const [removed] = newTasks.splice(fromIndex, 1); newTasks.splice(toIndex, 0, removed)`.
When `fromIndex` is out of range the splice removes nothing (the guard
keeps the list unchanged; the source would splice in `undefined`, a state
the task type cannot represent and that in-bounds callers never reach). -/
def reorderTasks (tasks : List Task) (fromIndex toIndex : Nat) : List Task :=
  match tasks[fromIndex]? with
  | some removed => spliceInsert toIndex removed (tasks.eraseIdx fromIndex)
  | none => tasks

/-- One digit rendered as a character, `0 ↦ '0'`, …, `9 ↦ '9'`. -/
def digitToChar (d : Nat) : Char :=
  Char.ofNat (48 + d)

/-- The inverse reading of a digit character. -/
def charToDigit (c : Char) : Nat :=
  c.toNat - 48

/-- The rendering of a `Date` into the persisted string performed by
`JSON.stringify` (ISO-8601 in the original, modelled as the decimal
rendering of the millisecond timestamp; digits are most significant
first). -/
def encodeDate (n : Nat) : String :=
  if n = 0 then "0" else ⟨((Nat.digits 10 n).map digitToChar).reverse⟩

/-- The parse `new Date(string)` of a persisted date string back into a
millisecond timestamp. -/
def decodeDate (s : String) : Nat :=
  Nat.ofDigits 10 (s.data.map charToDigit).reverse

/-- A task record as it sits in the persisted JSON array: the same fields,
with the dates rendered as strings. -/
structure StoredTask where
  id : Nat
  text : String
  completed : Bool
  createdAt : String
  priority : Priority
  dueDate : Option String
deriving DecidableEq, Repr

/-- The effect of `JSON.stringify` on one task inside `saveTasks`: the
record is kept field for field, the dates become strings, a `null`
due date stays `null`. -/
def serializeTask (t : Task) : StoredTask :=
  { id := t.id
    text := t.text
    completed := t.completed
    createdAt := encodeDate t.createdAt
    priority := t.priority
    dueDate := t.dueDate.map encodeDate }

/-- `saveTasks` from the main component: persist the whole list. -/
def saveTasks (tasks : List Task) : List StoredTask :=
  tasks.map serializeTask

/-- The per-task mapping inside `loadData`:
`{ ...task, createdAt: new Date(task.createdAt), dueDate: task.dueDate ? new Date(task.dueDate) : null }`. -/
def parseStoredTask (s : StoredTask) : Task :=
  { id := s.id
    text := s.text
    completed := s.completed
    createdAt := decodeDate s.createdAt
    priority := s.priority
    dueDate := match s.dueDate with
      | some d => some (decodeDate d)
      | none => none }

/-- `loadData` from the main component restricted to the tasks key: when
the key is absent (`savedTasks` is `null`) the task list stays at its
initial empty value; otherwise the stored array is parsed task by
task. -/
def loadData (storedTasks : Option (List StoredTask)) : List Task :=
  match storedTasks with
  | some saved => saved.map parseStoredTask
  | none => []

/-- The observable state relevant to clearing: the in-memory list and the
value persisted under the tasks key (`none` = key absent). -/
structure AppState where
  tasks : List Task
  storedTasks : Option (List StoredTask)
deriving Repr

/-- `clearAllTasks` from the main component: `setTasks([])` and
`AsyncStorage.removeItem('@tasks')`. -/
def clearAllTasks (_st : AppState) : AppState :=
  { tasks := [], storedTasks := none }

/-- A store mutation drawn from the adds and removes the application can
perform; each add carries the clock value `Date.now()` observed when it
runs. -/
inductive Op where
  | add (text : String) (priority : Priority) (selectedDate : Nat) (now : Nat)
  | remove (taskId : Nat)

/-- Apply one operation to the store. -/
def applyOp (tasks : List Task) : Op → List Task
  | .add text priority selectedDate now => addTask tasks text priority selectedDate now
  | .remove taskId => confirmDelete tasks taskId

/-- Run a sequence of operations from the empty store. -/
def runOps (ops : List Op) : List Task :=
  ops.foldl applyOp []

/-- The clock values observed by the add operations of a sequence, in
order. -/
def addTimes : List Op → List Nat
  | [] => []
  | .add _ _ _ now :: rest => now :: addTimes rest
  | .remove _ :: rest => addTimes rest

/-- Concrete task used to instantiate universally quantified results. -/
def sampleApple : Task :=
  { id := 1, text := "Apple", completed := false, createdAt := 0,
    priority := .medium, dueDate := none }

/-- Concrete completed task used to instantiate universally quantified
results. -/
def sampleBerry : Task :=
  { id := 2, text := "Berry", completed := true, createdAt := 0,
    priority := .high, dueDate := some 10 }

/-- Concrete task with text `"old"` used to instantiate edit results. -/
def sampleOld : Task :=
  { id := 1, text := "old", completed := false, createdAt := 0,
    priority := .medium, dueDate := none }

/-- Concrete incomplete task with id 3 used to instantiate universally
quantified results. -/
def sampleCarrot : Task :=
  { id := 3, text := "Carrot", completed := false, createdAt := 0,
    priority := .low, dueDate := none }

/-- The frame property of the four single-task mutations at position `k`,
where `t` is the task currently at `k`: each mutation preserves the
length (hence the order) of the list and the identity of every task,
leaves unmatched tasks untouched, and for a matched task changes nothing
beyond its own target field. -/
def FrameConclusion (tasks : List Task) (taskId : Nat) (newText : String)
    (newPriority : Priority) (newDate : Nat) (k : Nat) (t : Task) : Prop :=
  (toggleTask tasks taskId).1.length = tasks.length ∧
  (editTask tasks taskId newText).length = tasks.length ∧
  (updateTaskPriority tasks taskId newPriority).length = tasks.length ∧
  (updateTaskDueDate tasks taskId newDate).length = tasks.length ∧
  (∃ u, (toggleTask tasks taskId).1[k]? = some u ∧ u.id = t.id ∧ u.text = t.text ∧
    u.createdAt = t.createdAt ∧ u.priority = t.priority ∧ u.dueDate = t.dueDate ∧
    (t.id ≠ taskId → u = t)) ∧
  (∃ u, (editTask tasks taskId newText)[k]? = some u ∧ u.id = t.id ∧
    u.completed = t.completed ∧ u.createdAt = t.createdAt ∧ u.priority = t.priority ∧
    u.dueDate = t.dueDate ∧ (t.id ≠ taskId → u = t)) ∧
  (∃ u, (updateTaskPriority tasks taskId newPriority)[k]? = some u ∧ u.id = t.id ∧
    u.text = t.text ∧ u.completed = t.completed ∧ u.createdAt = t.createdAt ∧
    u.dueDate = t.dueDate ∧ (t.id ≠ taskId → u = t)) ∧
  (∃ u, (updateTaskDueDate tasks taskId newDate)[k]? = some u ∧ u.id = t.id ∧
    u.text = t.text ∧ u.completed = t.completed ∧ u.createdAt = t.createdAt ∧
    u.priority = t.priority ∧ (t.id ≠ taskId → u = t))

/- ------------------------------------------------------------------ -/
/- Theorems                                                           -/
/- ------------------------------------------------------------------ -/

theorem charToDigit_digitToChar (d : Nat) (hd : d < 10) :
    charToDigit (digitToChar d) = d := by
  interval_cases d <;> decide

theorem decodeDate_encodeDate (n : Nat) : decodeDate (encodeDate n) = n := by
  rcases eq_or_ne n 0 with h | h
  · subst h
    decide
  · have hchars : (encodeDate n).data = ((Nat.digits 10 n).map digitToChar).reverse := by
      simp [encodeDate, h]
    rw [decodeDate, hchars, List.map_reverse, List.reverse_reverse, List.map_map]
    have hdig : ∀ d ∈ Nat.digits 10 n, (charToDigit ∘ digitToChar) d = id d := fun d hd =>
      charToDigit_digitToChar d (Nat.digits_lt_base (by norm_num) hd)
    rw [List.map_congr_left hdig, List.map_id, Nat.ofDigits_digits]

theorem parseStoredTask_serializeTask (t : Task) :
    parseStoredTask (serializeTask t) = t := by
  cases t with
  | mk i tx c ca p dd =>
    cases dd <;> simp [parseStoredTask, serializeTask, decodeDate_encodeDate]

/-- C7: serializing the task list to the persisted form (dates rendered
as strings) and deserializing through the load parsing restores a task
list structurally equal to the original, with `createdAt` and `dueDate`
back as timestamps and an absent due date back as `null`. -/
theorem loadData_saveTasks_roundTrip (tasks : List Task) :
    loadData (some (saveTasks tasks)) = tasks := by
  simp only [loadData, saveTasks, List.map_map, Function.comp_def]
  rw [List.map_congr_left fun t _ => parseStoredTask_serializeTask t]
  exact List.map_id' tasks

/-- C2: adding with whitespace-only text is a no-op; otherwise exactly one
task is prepended at index 0 with the given text, `completed = false`, the
given priority, `createdAt = now`, and a due date only when the selected
date is strictly later than now, while the existing tasks are untouched
and keep their order. -/
theorem addTask_spec (tasks : List Task) (newTask : String) (priority : Priority)
    (selectedDate now : Nat) :
    (jsTrim newTask = "" → addTask tasks newTask priority selectedDate now = tasks) ∧
    (jsTrim newTask ≠ "" →
      ∃ newTaskObj,
        addTask tasks newTask priority selectedDate now = newTaskObj :: tasks ∧
        newTaskObj.text = newTask ∧
        newTaskObj.completed = false ∧
        newTaskObj.priority = priority ∧
        newTaskObj.createdAt = now ∧
        (selectedDate > now → newTaskObj.dueDate = some selectedDate) ∧
        (¬selectedDate > now → newTaskObj.dueDate = none)) := by
  constructor
  · intro h
    simp [addTask, h]
  · intro h
    refine ⟨{ id := now, text := newTask, completed := false, createdAt := now,
              priority := priority,
              dueDate := if selectedDate > now then some selectedDate else none },
            by simp [addTask, h], rfl, rfl, rfl, rfl, ?_, ?_⟩
    · intro hgt
      simp [hgt]
    · intro hle
      simp [hle]

theorem addTask_spec_witness :
    jsTrim "hi" ≠ "" ∧
    (∃ newTaskObj,
      addTask [] "hi" Priority.high 9 3 = newTaskObj :: [] ∧
      newTaskObj.text = "hi" ∧
      newTaskObj.completed = false ∧
      newTaskObj.priority = Priority.high ∧
      newTaskObj.createdAt = 3 ∧
      (9 > 3 → newTaskObj.dueDate = some 9) ∧
      (¬9 > 3 → newTaskObj.dueDate = none)) :=
  ⟨by decide, (addTask_spec [] "hi" Priority.high 9 3).2 (by decide)⟩

/-- C10: a successful add stores the text exactly as typed, without
trimming, even though the emptiness check is made on the trimmed text. -/
theorem addTask_preserves_untrimmed_text (tasks : List Task) (newTask : String)
    (priority : Priority) (selectedDate now : Nat) (h : jsTrim newTask ≠ "") :
    ∃ t, (addTask tasks newTask priority selectedDate now).head? = some t ∧
      t.text = newTask :=
  ⟨{ id := now, text := newTask, completed := false, createdAt := now,
     priority := priority,
     dueDate := if selectedDate > now then some selectedDate else none },
   by simp [addTask, h], rfl⟩

theorem addTask_preserves_untrimmed_text_witness :
    jsTrim "  x  " ≠ "" ∧
    ∃ t, (addTask [] "  x  " Priority.medium 0 3).head? = some t ∧ t.text = "  x  " :=
  ⟨by decide, addTask_preserves_untrimmed_text [] "  x  " Priority.medium 0 3 (by decide)⟩

/-- C4: the `active` and `completed` filters select exactly the
uncompleted resp. completed tasks in order, ignoring the query; the query
restricts the result (to case-insensitive substring matches) only when the
filter is `all`, and with filter `all` and an empty query nothing is
filtered — the branches are exclusive, not an AND. -/
theorem filteredTasks_spec (tasks : List Task) (q : String) :
    filteredTasks tasks .active q = tasks.filter (fun t => !t.completed) ∧
    filteredTasks tasks .completed q = tasks.filter (fun t => t.completed) ∧
    (q ≠ "" → filteredTasks tasks .all q = tasks.filter fun t => jsIncludes t.text q) ∧
    filteredTasks tasks .all "" = tasks := by
  refine ⟨rfl, rfl, fun hq => ?_, ?_⟩
  · simp [filteredTasks, hq]
  · simp [filteredTasks]

theorem filteredTasks_spec_witness :
    ("a" : String) ≠ "" ∧
    filteredTasks [sampleApple, sampleBerry] .all "a" =
      List.filter (fun t => jsIncludes t.text "a") [sampleApple, sampleBerry] :=
  ⟨by decide, (filteredTasks_spec [sampleApple, sampleBerry] "a").2.2.1 (by decide)⟩

/-- C5: with a non-empty trimmed replacement text the edit path replaces
the text of the matching task (leaving the rest identical), and with an
empty or whitespace-only replacement the edit is a no-op. -/
theorem saveEdit_spec (tasks : List Task) (taskId : Nat) (newText : String) :
    (jsTrim newText = "" → saveEdit tasks taskId newText = tasks) ∧
    (jsTrim newText ≠ "" → ∀ (k : Nat) (t : Task), tasks[k]? = some t →
      (saveEdit tasks taskId newText)[k]? =
        some (if t.id = taskId then { t with text := newText } else t)) := by
  constructor
  · intro h
    simp [saveEdit, h]
  · intro h k t ht
    simp [saveEdit, h, editTask, List.getElem?_map, ht]

theorem saveEdit_spec_witness :
    jsTrim "new" ≠ "" ∧
    ([sampleOld] : List Task)[0]? = some sampleOld ∧
    (saveEdit [sampleOld] 1 "new")[0]? =
      some (if sampleOld.id = 1 then { sampleOld with text := "new" } else sampleOld) :=
  ⟨by decide, rfl, (saveEdit_spec [sampleOld] 1 "new").2 (by decide) 0 sampleOld rfl⟩

/-- C8: after `clearAllTasks` the in-memory list is empty and the
persisted tasks record is absent, a subsequent load yields the empty
list, and loading an absent key is observably equal to loading a
serialized empty array. -/
theorem clearAllTasks_spec (st : AppState) :
    (clearAllTasks st).tasks = [] ∧
    (clearAllTasks st).storedTasks = none ∧
    loadData (clearAllTasks st).storedTasks = [] ∧
    loadData none = loadData (some ([] : List StoredTask)) :=
  ⟨rfl, rfl, rfl, rfl⟩

theorem length_spliceInsert {α : Type} (a : α) :
    ∀ (n : Nat) (l : List α), n ≤ l.length →
      (spliceInsert n a l).length = l.length + 1 := by
  intro n l
  induction l generalizing n with
  | nil =>
    intro h
    cases n with
    | zero => rfl
    | succ m => exact absurd h (by simp)
  | cons b l ih =>
    intro h
    cases n with
    | zero => rfl
    | succ m =>
      simp only [spliceInsert, List.length_cons]
      rw [ih m (by simpa using h)]

theorem getElem?_spliceInsert_self {α : Type} (a : α) :
    ∀ (n : Nat) (l : List α), n ≤ l.length → (spliceInsert n a l)[n]? = some a := by
  intro n l
  induction l generalizing n with
  | nil =>
    intro h
    cases n with
    | zero => rfl
    | succ m => exact absurd h (by simp)
  | cons b l ih =>
    intro h
    cases n with
    | zero => rfl
    | succ m =>
      simp only [spliceInsert, List.getElem?_cons_succ]
      exact ih m (by simpa using h)

theorem eraseIdx_spliceInsert {α : Type} (a : α) :
    ∀ (n : Nat) (l : List α), n ≤ l.length → (spliceInsert n a l).eraseIdx n = l := by
  intro n l
  induction l generalizing n with
  | nil =>
    intro h
    cases n with
    | zero => rfl
    | succ m => exact absurd h (by simp)
  | cons b l ih =>
    intro h
    cases n with
    | zero => rfl
    | succ m =>
      simp only [spliceInsert, List.eraseIdx_cons_succ, List.cons.injEq, true_and]
      exact ih m (by simpa using h)

/-- C6: for in-bounds indices, `reorderTasks` has splice semantics — the
result keeps the length, carries the task formerly at `fromIndex` at
position `toIndex`, and deleting it there recovers exactly the
post-removal sequence, so every other task keeps its relative order. -/
theorem reorderTasks_spec (l : List Task) (i j : Nat) (hi : i < l.length)
    (hj : j < l.length) :
    (reorderTasks l i j).length = l.length ∧
    (reorderTasks l i j)[j]? = l[i]? ∧
    (reorderTasks l i j).eraseIdx j = l.eraseIdx i := by
  have hx := List.getElem?_eq_getElem hi
  have hjle : j ≤ (l.eraseIdx i).length := by
    rw [List.length_eraseIdx, if_pos hi]
    omega
  have hr : reorderTasks l i j = spliceInsert j (l.get ⟨i, hi⟩) (l.eraseIdx i) := by
    simp [reorderTasks, hx]
  refine ⟨?_, ?_, ?_⟩
  · rw [hr, length_spliceInsert _ _ _ hjle, List.length_eraseIdx, if_pos hi]
    omega
  · rw [hr, getElem?_spliceInsert_self _ _ _ hjle, hx]
    rfl
  · rw [hr, eraseIdx_spliceInsert _ _ _ hjle]

theorem reorderTasks_spec_witness :
    (0 < ([sampleApple, sampleBerry, sampleCarrot, sampleOld] : List Task).length) ∧
    (2 < ([sampleApple, sampleBerry, sampleCarrot, sampleOld] : List Task).length) ∧
    reorderTasks [sampleApple, sampleBerry, sampleCarrot, sampleOld] 0 2 =
      [sampleBerry, sampleCarrot, sampleApple, sampleOld] ∧
    ((reorderTasks [sampleApple, sampleBerry, sampleCarrot, sampleOld] 0 2).length =
        ([sampleApple, sampleBerry, sampleCarrot, sampleOld] : List Task).length ∧
      (reorderTasks [sampleApple, sampleBerry, sampleCarrot, sampleOld] 0 2)[2]? =
        ([sampleApple, sampleBerry, sampleCarrot, sampleOld] : List Task)[0]? ∧
      (reorderTasks [sampleApple, sampleBerry, sampleCarrot, sampleOld] 0 2).eraseIdx 2 =
        ([sampleApple, sampleBerry, sampleCarrot, sampleOld] : List Task).eraseIdx 0) :=
  ⟨by decide, by decide, by decide,
    reorderTasks_spec [sampleApple, sampleBerry, sampleCarrot, sampleOld] 0 2
      (by decide) (by decide)⟩

/-- C3 counterexample: with a store whose tasks are already all completed,
toggling an id that is not present still emits the celebration signal,
although no transition from a not-all-completed state happened and the
toggled id is absent — the claim's characterisation is false on the
code. -/
theorem toggleTask_celebration_counterexample :
    (¬∃ t ∈ [sampleBerry], t.id = 99) ∧
    (∀ t ∈ [sampleBerry], t.completed = true) ∧
    (toggleTask [sampleBerry] 99).2 = true :=
  ⟨by decide, by decide, by decide⟩

/-- C3 amended: the celebration signal is emitted iff after the toggle
every task in the store is completed (vacuously so for an empty store or
an absent id when all tasks were already completed); in particular it is
not emitted when some other task remains incomplete. -/
theorem toggleTask_celebration_iff (tasks : List Task) (taskId : Nat) :
    ((toggleTask tasks taskId).2 = true ↔
      ∀ t ∈ (toggleTask tasks taskId).1, t.completed = true) ∧
    ((∃ t ∈ tasks, t.id ≠ taskId ∧ t.completed = false) →
      (toggleTask tasks taskId).2 = false) := by
  constructor
  · exact List.all_eq_true
  · rintro ⟨t, htmem, hne, hc⟩
    have himg : (fun task =>
        if task.id = taskId then { task with completed := !task.completed }
        else task) t = t := by
      simp [hne]
    refine List.all_eq_false.mpr ⟨t, ?_, ?_⟩
    · exact himg ▸ List.mem_map_of_mem _ htmem
    · simp [hc]

theorem toggleTask_celebration_iff_witness :
    (∃ t ∈ [sampleApple, sampleCarrot], t.id ≠ 1 ∧ t.completed = false) ∧
    (toggleTask [sampleApple, sampleCarrot] 1).2 = false :=
  ⟨by decide, (toggleTask_celebration_iff [sampleApple, sampleCarrot] 1).2 (by decide)⟩

/-- C9: `toggleTask`, `editTask`, `updateTaskPriority` and
`updateTaskDueDate` preserve length, order and every task's id; tasks
whose id does not match are completely unchanged, and for a matched task
every field other than the targeted one is unchanged. -/
theorem mutation_frame_spec (tasks : List Task) (taskId : Nat) (newText : String)
    (newPriority : Priority) (newDate : Nat) (k : Nat) (t : Task)
    (ht : tasks[k]? = some t) :
    FrameConclusion tasks taskId newText newPriority newDate k t := by
  have hmap : ∀ g : Task → Task,
      (tasks.map fun task => if task.id = taskId then g task else task)[k]? =
        some (if t.id = taskId then g t else t) := by
    intro g
    rw [List.getElem?_map, ht, Option.map_some']
  refine ⟨by simp [toggleTask], by simp [editTask], by simp [updateTaskPriority],
    by simp [updateTaskDueDate], ?_, ?_, ?_, ?_⟩
  · refine ⟨_, hmap fun task => { task with completed := !task.completed },
      ?_, ?_, ?_, ?_, ?_, ?_⟩ <;> by_cases hid : t.id = taskId <;> simp [hid]
  · refine ⟨_, hmap fun task => { task with text := newText },
      ?_, ?_, ?_, ?_, ?_, ?_⟩ <;> by_cases hid : t.id = taskId <;> simp [hid]
  · refine ⟨_, hmap fun task => { task with priority := newPriority },
      ?_, ?_, ?_, ?_, ?_, ?_⟩ <;> by_cases hid : t.id = taskId <;> simp [hid]
  · refine ⟨_, hmap fun task => { task with dueDate := some newDate },
      ?_, ?_, ?_, ?_, ?_, ?_⟩ <;> by_cases hid : t.id = taskId <;> simp [hid]

theorem mutation_frame_spec_witness :
    ([sampleApple, sampleBerry] : List Task)[1]? = some sampleBerry ∧
    FrameConclusion [sampleApple, sampleBerry] 1 "x" Priority.low 42 1 sampleBerry :=
  ⟨rfl, mutation_frame_spec [sampleApple, sampleBerry] 1 "x" Priority.low 42 1
    sampleBerry rfl⟩

theorem runOps_core_nodup :
    ∀ (ops : List Op) (init : List Task),
      (init.map fun t => t.id).Nodup →
      (∀ t ∈ init, ∀ n ∈ addTimes ops, t.id ≠ n) →
      (addTimes ops).Nodup →
      ((ops.foldl applyOp init).map fun t => t.id).Nodup := by
  intro ops
  induction ops with
  | nil =>
    intro init h1 _ _
    exact h1
  | cons op rest ih =>
    intro init h1 h2 h3
    cases op with
    | remove taskId =>
      show ((rest.foldl applyOp (confirmDelete init taskId)).map fun t => t.id).Nodup
      apply ih
      · exact List.Nodup.sublist (List.Sublist.map _ (List.filter_sublist _)) h1
      · intro t htmem n hn
        exact h2 t (List.mem_of_mem_filter htmem) n hn
      · exact h3
    | add text priority selectedDate now =>
      have h3' := List.nodup_cons.mp h3
      show ((rest.foldl applyOp
        (addTask init text priority selectedDate now)).map fun t => t.id).Nodup
      apply ih
      · by_cases htrim : jsTrim text = ""
        · simpa [addTask, htrim] using h1
        · have hnotin : ∀ t ∈ init, t.id ≠ now := fun t htm =>
            h2 t htm now (List.mem_cons_self _ _)
          unfold addTask
          rw [if_pos htrim, List.map_cons, List.nodup_cons]
          refine ⟨?_, h1⟩
          intro hmem
          obtain ⟨t, htm, hteq⟩ := List.mem_map.mp hmem
          exact hnotin t htm hteq
      · intro t htmem n hn
        by_cases htrim : jsTrim text = ""
        · rw [addTask, if_neg (by simp [htrim])] at htmem
          exact h2 t htmem n (List.mem_cons_of_mem _ hn)
        · rw [addTask, if_pos htrim] at htmem
          rcases List.mem_cons.mp htmem with heq | htm
          · rw [heq]
            intro hc
            apply h3'.1
            rw [show now = n from hc]
            exact hn
          · exact h2 t htm n (List.mem_cons_of_mem _ hn)
      · exact h3'.2

/-- C1 counterexample: two adds observing the same `Date.now()` value
(the same millisecond) assign the same id to both tasks, so a sequence of
add operations from the empty store can produce duplicate ids — the claim
fails as stated. -/
theorem runOps_duplicate_ids_counterexample :
    ((runOps [Op.add "a" Priority.medium 0 5,
              Op.add "b" Priority.medium 0 5]).map fun t => t.id) = [5, 5] ∧
    ¬((runOps [Op.add "a" Priority.medium 0 5,
               Op.add "b" Priority.medium 0 5]).map fun t => t.id).Nodup :=
  ⟨by decide, by decide⟩

/-- C1 amended: for every sequence of add and remove operations from the
empty store in which no two add operations observe the same `Date.now()`
value (the add timestamps are pairwise distinct), all tasks in the
resulting store have pairwise distinct ids. -/
theorem runOps_ids_nodup (ops : List Op)
    (h : (addTimes ops).Nodup) :
    ((runOps ops).map fun t => t.id).Nodup :=
  runOps_core_nodup ops [] (by simp) (by simp) h

theorem runOps_ids_nodup_witness :
    (addTimes [Op.add "a" Priority.medium 0 1, Op.add "b" Priority.medium 0 2,
        Op.remove 1]).Nodup ∧
    ((runOps [Op.add "a" Priority.medium 0 1, Op.add "b" Priority.medium 0 2,
        Op.remove 1]).map fun t => t.id).Nodup :=
  ⟨by decide, runOps_ids_nodup [Op.add "a" Priority.medium 0 1,
    Op.add "b" Priority.medium 0 2, Op.remove 1] (by decide)⟩

end TaskStore
